import Mathlib

/-!
Verification of the CHIP-8 interpreter core (`src/interpreter/chip8.rs`,
`src/interpreter/chip8/{instruction,operations,program_counter}.rs`).

The machine state, the instruction decoder and the opcode handlers are
embedded shallowly: 8-bit registers and memory cells are natural numbers
kept below 256 (wellformedness predicate `Chip8.Wf`), the 16-bit program
counter and address register are kept below 65536, and every wrapping
machine operation is written with an explicit `% 256` or `% 65536`.
Rust`s release-mode wrapping semantics is used for integer overflow.
Array indexing in the Rust source panics when out of bounds; theorems
about memory-accessing operations therefore carry explicit in-bounds
hypotheses and the model reads total functions `Nat → Nat`.
-/

/-- Pointwise update of a register or memory file modelled as a function. -/
def updf (f : Nat → Nat) (k v : Nat) : Nat → Nat :=
  fun t => if t = k then v else f t

/-- Pointwise update of the boolean display grid. -/
def updd (f : Nat → Bool) (k : Nat) (v : Bool) : Nat → Bool :=
  fun t => if t = k then v else f t

/-- Rust `u8::overflowing_add`: wrapped sum and the carry-out bit. -/
def u8_overflowing_add (a b : Nat) : Nat × Bool :=
  ((a + b) % 256, decide (256 ≤ a + b))

/-- Rust `u8::overflowing_sub`: wrapped difference and the borrow bit. -/
def u8_overflowing_sub (a b : Nat) : Nat × Bool :=
  ((a + 256 - b) % 256, decide (a < b))

/-- Rust `u8::overflowing_shr`: shifts by `sh % 8`; the boolean reports
whether the shift amount was at least the bit width (8), not the bit
shifted out. -/
def u8_overflowing_shr (a sh : Nat) : Nat × Bool :=
  (a / 2 ^ (sh % 8), decide (8 ≤ sh))

/-- Rust `u8::overflowing_shl`: shifts by `sh % 8` with wrap to 8 bits;
the boolean reports whether the shift amount was at least 8. -/
def u8_overflowing_shl (a sh : Nat) : Nat × Bool :=
  (a * 2 ^ (sh % 8) % 256, decide (8 ≤ sh))

/-- Rust `num_traits` conversion `to_u8().unwrap_or_default()`:
out-of-range values collapse to 0 (they are never truncated). -/
def to_u8_or_0 (a : Nat) : Nat :=
  if a < 256 then a else 0

/-- Rust `num_traits` conversion `to_u16().unwrap_or_default()`. -/
def to_u16_or_0 (a : Nat) : Nat :=
  if a < 65536 then a else 0

/-- `Instruction` (instruction.rs): an immutable view over one raw
16-bit big-endian word. -/
structure Instruction where
  raw : Nat
deriving DecidableEq

/-- `Instruction::new_from_bytes`: big-endian assembly of two bytes. -/
def Instruction.new_from_bytes (b1 b2 : Nat) : Instruction :=
  ⟨(b1 % 256) * 256 + b2 % 256⟩

/-- `Instruction::to_raw_instr`. -/
def Instruction.to_raw_instr (ins : Instruction) : Nat :=
  ins.raw

/-- `Instruction::first_nibble`: `(raw & 0xF000) >> 12`. -/
def Instruction.first_nibble (ins : Instruction) : Nat :=
  ins.raw / 4096 % 16

/-- `Instruction::last_nibble`: `raw & 0xF`. -/
def Instruction.last_nibble (ins : Instruction) : Nat :=
  ins.raw % 16

/-- `Instruction::x` and the first component of `Instruction::x_y`:
`(raw & 0x0F00) >> 8`. -/
def Instruction.x (ins : Instruction) : Nat :=
  ins.raw / 256 % 16

/-- The second component of `Instruction::x_y`: `(raw & 0x0F0) >> 4`. -/
def Instruction.y (ins : Instruction) : Nat :=
  ins.raw / 16 % 16

/-- `Instruction::nnn`: `raw & 0x0FFF`. -/
def Instruction.nnn (ins : Instruction) : Nat :=
  ins.raw % 4096

/-- `Instruction::kk`: `raw & 0x00FF`. -/
def Instruction.kk (ins : Instruction) : Nat :=
  ins.raw % 256

/-- `ProgramCounter::increment` (`self.0 += 2` on a u16, wrapping). -/
def pc_increment (p : Nat) : Nat :=
  (p + 2) % 65536

/-- `ProgramCounter::decrement_if` (`self.0 -= 2` on a u16, wrapping). -/
def pc_decrement_if (p : Nat) (cond : Bool) : Nat :=
  if cond then (p + 65534) % 65536 else p

/-- `ProgramCounter::increment_if`. -/
def pc_increment_if (p : Nat) (cond : Bool) : Nat :=
  if cond then pc_increment p else p

/-- `Chip8` machine state (chip8.rs), with the `Screen` fields inlined.
`memory` and `v` are total functions; only indices below 4096 resp. 16
are meaningful, matching the Rust arrays `[u8; 4096]` and `[u8; 16]`. -/
structure Chip8 where
  memory : Nat → Nat
  pc : Nat
  v : Nat → Nat
  i : Nat
  stack : List Nat
  display : Nat → Bool
  refresh : Bool
  delay_timer : Nat
  sound_timer : Nat
  input : List Nat
  c48_mode : Bool

/-- Wellformedness: every stored quantity fits its Rust machine type. -/
def Chip8.Wf (c : Chip8) : Prop :=
  (∀ a < 4096, c.memory a < 256) ∧ (∀ r < 16, c.v r < 256) ∧
    c.pc < 65536 ∧ c.i < 65536 ∧ (∀ k ∈ c.input, k < 256)

/-- `Chip8::set_reg_to` on a general-purpose register
(`Reg::V(x)`, via `to_u8().unwrap_or_default()`). -/
def Chip8.set_v (c : Chip8) (x val : Nat) : Chip8 :=
  { c with v := updf c.v x (to_u8_or_0 val) }

/-- `Chip8::set_reg_to` on the address register (`Reg::I`). -/
def Chip8.set_i (c : Chip8) (val : Nat) : Chip8 :=
  { c with i := to_u16_or_0 val }

/-- `Chip8::add_to_reg` on `Reg::V(x)` (`wrapping_add` on u8). -/
def Chip8.add_v (c : Chip8) (x val : Nat) : Chip8 :=
  { c with v := updf c.v x ((c.v x + to_u8_or_0 val) % 256) }

/-- `Chip8::add_to_reg` on `Reg::I` (`wrapping_add` on u16). -/
def Chip8.add_i (c : Chip8) (val : Nat) : Chip8 :=
  { c with i := (c.i + to_u16_or_0 val) % 65536 }

/-- `Chip8::set_register_flag_if_else_0`. -/
def Chip8.set_register_flag_if_else_0 (c : Chip8) (condition : Bool) : Chip8 :=
  if condition then c.set_v 15 1 else c.set_v 15 0

/-- `Chip8::handle_unknown_instr` only prints a warning; on the machine
state it is the identity. -/
def Chip8.handle_unknown_instr (c : Chip8) (_ : Instruction) : Chip8 :=
  c

/-- A uniform decidability instance for existentials bounded by `<`:
the core instance is keyed on the bound as a predicate argument and does
not fire when the bound is a numeral. -/
instance decExistsLtNat (n : Nat) (P : Nat → Prop) [DecidablePred P] :
    Decidable (∃ j, j < n ∧ P j) :=
  Nat.decidableExistsLT n

/-- Bit `j` (counted from the most significant bit, as the draw loop
consumes them) of the 8-bit sprite byte `b`: the test
`sprite_byte & 0x80 == 0x80` after `j` left shifts of `b`. -/
def spriteBit (b j : Nat) : Bool :=
  decide (b / 2 ^ (7 - j) % 2 = 1)

/-- The inner loop of `Chip8::draw`: processes the remaining `k` bits of
the current sprite byte `b` at horizontal cursor `dx` and row `dy`,
threading the display and the flag register value `vf`; returns the new
display, flag value and horizontal cursor.  The loop breaks as soon as
the row-major index `dy * 64 + dx` reaches the end of the 2048-cell
grid. -/
def drawBits : Nat → Nat → Nat → Nat → (Nat → Bool) → Nat →
    ((Nat → Bool) × Nat × Nat)
  | 0, _, dx, _, disp, vf => (disp, vf, dx)
  | k + 1, b, dx, dy, disp, vf =>
      if 2048 ≤ dy * 64 + dx then (disp, vf, dx)
      else if b / 128 % 2 = 1 then
        if disp (dy * 64 + dx) then
          drawBits k (b * 2 % 256) (dx + 1) dy (updd disp (dy * 64 + dx) false) 1
        else
          drawBits k (b * 2 % 256) (dx + 1) dy (updd disp (dy * 64 + dx) true) vf
      else
        drawBits k (b * 2 % 256) (dx + 1) dy disp vf

/-- The outer loop of `Chip8::draw`: one iteration per sprite row, each
reading the next byte at `addr`, running the 8-bit inner loop, then
restoring the horizontal cursor (`checked_sub(8).unwrap_or(0)`, which is
Nat subtraction) and advancing the row cursor. -/
def drawRows (mem : Nat → Nat) : Nat → Nat → Nat → Nat → (Nat → Bool) → Nat →
    ((Nat → Bool) × Nat)
  | _, 0, _, _, disp, vf => (disp, vf)
  | addr, k + 1, dx, dy, disp, vf =>
      let r := drawBits 8 (mem addr) dx dy disp vf
      drawRows mem (addr + 1) k (r.2.2 - 8) (dy + 1) r.1 r.2.1

/-- `Chip8::draw`: coordinates are taken modulo the display size, the
flag register is cleared up front, and the row loop runs over
`last_nibble` sprite bytes starting at the address register. -/
def Chip8.draw (c : Chip8) (instr : Instruction) : Chip8 :=
  let dx := c.v instr.x % 64
  let dy := c.v instr.y % 32
  let r := drawRows c.memory c.i instr.last_nibble dx dy c.display 0
  { c with display := r.1, v := updf c.v 15 r.2 }

/-- The display cell `p` is covered by a lit sprite bit of the draw with
top-left corner `(x0, y0)`, `n` rows read from `mem` at `addr`: the
code toggles exactly the cells whose running row-major index stays
below 2048. -/
def spriteHits (mem : Nat → Nat) (addr x0 y0 n p : Nat) : Prop :=
  ∃ i < n, ∃ j < 8,
    p = (y0 + i) * 64 + x0 + j ∧ p < 2048 ∧ spriteBit (mem (addr + i)) j = true

instance spriteHits.dec (mem : Nat → Nat) (addr x0 y0 n p : Nat) :
    Decidable (spriteHits mem addr x0 y0 n p) := by
  unfold spriteHits
  infer_instance

/-- Some lit sprite bit lands on a display cell that is currently on:
exactly the condition under which the draw reports a collision. -/
def spriteCollide (mem : Nat → Nat) (addr x0 y0 n : Nat) (disp : Nat → Bool) : Prop :=
  ∃ p < 2048, spriteHits mem addr x0 y0 n p ∧ disp p = true

instance spriteCollide.dec (mem : Nat → Nat) (addr x0 y0 n : Nat) (disp : Nat → Bool) :
    Decidable (spriteCollide mem addr x0 y0 n disp) := by
  unfold spriteCollide
  infer_instance

/-- `op_table_0` (operations.rs): clear screen, return from subroutine
(popped empty stack falls back to address 0), else unknown. -/
def op_table_0 (c : Chip8) (instr : Instruction) : Chip8 :=
  if instr.kk = 0xE0 then
    { c with display := fun _ => false, refresh := true }
  else if instr.kk = 0xEE then
    match c.stack with
    | [] => { c with pc := 0 }
    | a :: rest => { c with pc := a, stack := rest }
  else
    c.handle_unknown_instr instr

/-- `op_table_8` (operations.rs): the register-to-register ALU family.
In each arithmetic and shift case the flag register is written first and
the result register afterwards, exactly as in the source. -/
def op_table_8 (c : Chip8) (instr : Instruction) : Chip8 :=
  let x := instr.x
  let y := instr.y
  if instr.last_nibble = 0x0 then c.set_v x (c.v y)
  else if instr.last_nibble = 0x1 then c.set_v x (c.v x ||| c.v y)
  else if instr.last_nibble = 0x2 then c.set_v x (c.v x &&& c.v y)
  else if instr.last_nibble = 0x3 then c.set_v x (c.v x ^^^ c.v y)
  else if instr.last_nibble = 0x4 then
    let r := u8_overflowing_add (c.v x) (c.v y)
    (c.set_register_flag_if_else_0 r.2).set_v x r.1
  else if instr.last_nibble = 0x5 then
    let r := u8_overflowing_sub (c.v x) (c.v y)
    (c.set_register_flag_if_else_0 (!r.2)).set_v x r.1
  else if instr.last_nibble = 0x6 then
    let c1 := if !c.c48_mode then c.set_v x (c.v y) else c
    let r := u8_overflowing_shr (c1.v x) 1
    (c1.set_register_flag_if_else_0 r.2).set_v x r.1
  else if instr.last_nibble = 0x7 then
    let r := u8_overflowing_sub (c.v y) (c.v x)
    (c.set_register_flag_if_else_0 (!r.2)).set_v x r.1
  else if instr.last_nibble = 0xE then
    let c1 := if !c.c48_mode then c.set_v x (c.v y) else c
    let r := u8_overflowing_shl (c1.v x) 1
    (c1.set_register_flag_if_else_0 (!r.2)).set_v x r.1
  else
    c.handle_unknown_instr instr

/-- `op_table_e` (operations.rs): skip if key pressed / not pressed. -/
def op_table_e (c : Chip8) (instr : Instruction) : Chip8 :=
  if instr.kk = 0x9E then
    { c with pc := pc_increment_if c.pc (c.input.contains (c.v instr.x)) }
  else if instr.kk = 0xA1 then
    { c with pc := pc_increment_if c.pc (!c.input.contains (c.v instr.x)) }
  else
    c.handle_unknown_instr instr

/-- The `0xFX55` loop: store registers `0..=x` to memory at the address
register. -/
def store_regs (mem : Nat → Nat) (v : Nat → Nat) (base : Nat) : Nat → (Nat → Nat)
  | 0 => mem
  | k + 1 => updf (store_regs mem v base k) (base + k) (v k)

/-- The `0xFX65` loop: load registers `0..=x` from memory at the address
register. -/
def load_regs (v : Nat → Nat) (mem : Nat → Nat) (base : Nat) : Nat → (Nat → Nat)
  | 0 => v
  | k + 1 => updf (load_regs v mem base k) k (to_u8_or_0 (mem (base + k)))

/-- `op_table_f` (operations.rs): timers, wait-for-key, font address,
BCD, block transfer. -/
def op_table_f (c : Chip8) (instr : Instruction) : Chip8 :=
  let x := instr.x
  if instr.kk = 0x07 then c.set_v x c.delay_timer
  else if instr.kk = 0x0A then
    let c1 := { c with pc := pc_decrement_if c.pc c.input.isEmpty }
    let key := c1.input.headD 0
    c1.set_v x key
  else if instr.kk = 0x15 then { c with delay_timer := c.v x }
  else if instr.kk = 0x18 then { c with sound_timer := c.v x }
  else if instr.kk = 0x1E then
    let c1 := c.add_i (c.v x)
    if 0x1000 < c1.i then c1.set_v 15 1 else c1
  else if instr.kk = 0x29 then
    let ch := c.v x % 16
    c.set_i (0x050 + 5 * ch)
  else if instr.kk = 0x33 then
    let val := c.v x
    let m1 := updf c.memory c.i (val / 100)
    let m2 := updf m1 ((c.i + 1) % 65536) (val % 100 / 10)
    let m3 := updf m2 ((c.i + 2) % 65536) (val % 100 % 10)
    { c with memory := m3 }
  else if instr.kk = 0x55 then
    { c with memory := store_regs c.memory c.v c.i (x + 1) }
  else if instr.kk = 0x65 then
    { c with v := load_regs c.v c.memory c.i (x + 1) }
  else
    c.handle_unknown_instr instr

/-- `op_1nnn`: absolute jump. -/
def op_1nnn (c : Chip8) (instr : Instruction) : Chip8 :=
  { c with pc := instr.nnn }

/-- `op_2nnn`: call subroutine (push current PC, then jump). -/
def op_2nnn (c : Chip8) (instr : Instruction) : Chip8 :=
  { c with stack := c.pc :: c.stack, pc := instr.nnn }

/-- `op_3xkk`: skip if register equals immediate. -/
def op_3xkk (c : Chip8) (instr : Instruction) : Chip8 :=
  { c with pc := pc_increment_if c.pc (decide (c.v instr.x = instr.kk)) }

/-- `op_4xkk`: skip if register differs from immediate. -/
def op_4xkk (c : Chip8) (instr : Instruction) : Chip8 :=
  { c with pc := pc_increment_if c.pc (decide (c.v instr.x ≠ instr.kk)) }

/-- `op_5xy0`: skip if registers are equal. -/
def op_5xy0 (c : Chip8) (instr : Instruction) : Chip8 :=
  { c with pc := pc_increment_if c.pc (decide (c.v instr.x = c.v instr.y)) }

/-- `op_6xkk`: load immediate. -/
def op_6xkk (c : Chip8) (instr : Instruction) : Chip8 :=
  c.set_v instr.x instr.kk

/-- `op_7xkk`: wrapping add immediate. -/
def op_7xkk (c : Chip8) (instr : Instruction) : Chip8 :=
  c.add_v instr.x instr.kk

/-- `op_9xy0`: skip if registers differ. -/
def op_9xy0 (c : Chip8) (instr : Instruction) : Chip8 :=
  { c with pc := pc_increment_if c.pc (decide (c.v instr.x ≠ c.v instr.y)) }

/-- `op_annn`: load the address register. -/
def op_annn (c : Chip8) (instr : Instruction) : Chip8 :=
  c.set_i instr.nnn

/-- `op_bnnn`: the ambiguous jump-with-offset, gated by `c48_mode`
(the u8 sum `kk + v[x]` wraps modulo 256 before the cast to u16). -/
def op_bnnn (c : Chip8) (instr : Instruction) : Chip8 :=
  if c.c48_mode then
    { c with pc := (instr.kk + c.v instr.x) % 256 }
  else
    { c with pc := instr.nnn + c.v 0 }

/-- `op_cxkk`: random byte masked by the immediate; the random draw is
passed in as the parameter `rnd`. -/
def op_cxkk (rnd : Nat) (c : Chip8) (instr : Instruction) : Chip8 :=
  c.set_v instr.x (rnd % 256 &&& instr.kk)

/-- `op_dxyn`: draw, then mark the screen for refresh. -/
def op_dxyn (c : Chip8) (instr : Instruction) : Chip8 :=
  { c.draw instr with refresh := true }

/-- `Chip8::decode_and_execute` through `MAIN_TABLE`: dispatch on the
first nibble (always below 16, so the final branch is unreachable). -/
def decode_and_execute (rnd : Nat) (c : Chip8) (instr : Instruction) : Chip8 :=
  let fn := instr.first_nibble
  if fn = 0x0 then op_table_0 c instr
  else if fn = 0x1 then op_1nnn c instr
  else if fn = 0x2 then op_2nnn c instr
  else if fn = 0x3 then op_3xkk c instr
  else if fn = 0x4 then op_4xkk c instr
  else if fn = 0x5 then op_5xy0 c instr
  else if fn = 0x6 then op_6xkk c instr
  else if fn = 0x7 then op_7xkk c instr
  else if fn = 0x8 then op_table_8 c instr
  else if fn = 0x9 then op_9xy0 c instr
  else if fn = 0xA then op_annn c instr
  else if fn = 0xB then op_bnnn c instr
  else if fn = 0xC then op_cxkk rnd c instr
  else if fn = 0xD then op_dxyn c instr
  else if fn = 0xE then op_table_e c instr
  else op_table_f c instr

/-- `Chip8::fetch` composed with `decode_and_execute`, i.e. one
`run_instruction` step: read two bytes at the PC, advance the PC by 2,
dispatch. -/
def Chip8.step (rnd : Nat) (c : Chip8) : Chip8 :=
  let instr := Instruction.new_from_bytes (c.memory c.pc) (c.memory (c.pc + 1))
  decode_and_execute rnd { c with pc := pc_increment c.pc } instr

/-- The raw instruction a state is about to fetch. -/
def Chip8.fetched (c : Chip8) : Instruction :=
  Instruction.new_from_bytes (c.memory c.pc) (c.memory (c.pc + 1))

/-- An instruction that reaches one of the four sub-dispatched families
but matches no defined sub-code. -/
def UnknownSub (instr : Instruction) : Prop :=
  (instr.first_nibble = 0x0 ∧ instr.kk ≠ 0xE0 ∧ instr.kk ≠ 0xEE) ∨
  (instr.first_nibble = 0x8 ∧ instr.last_nibble ≠ 0x0 ∧ instr.last_nibble ≠ 0x1 ∧
    instr.last_nibble ≠ 0x2 ∧ instr.last_nibble ≠ 0x3 ∧ instr.last_nibble ≠ 0x4 ∧
    instr.last_nibble ≠ 0x5 ∧ instr.last_nibble ≠ 0x6 ∧ instr.last_nibble ≠ 0x7 ∧
    instr.last_nibble ≠ 0xE) ∨
  (instr.first_nibble = 0xE ∧ instr.kk ≠ 0x9E ∧ instr.kk ≠ 0xA1) ∨
  (instr.first_nibble = 0xF ∧ instr.kk ≠ 0x07 ∧ instr.kk ≠ 0x0A ∧
    instr.kk ≠ 0x15 ∧ instr.kk ≠ 0x18 ∧ instr.kk ≠ 0x1E ∧ instr.kk ≠ 0x29 ∧
    instr.kk ≠ 0x33 ∧ instr.kk ≠ 0x55 ∧ instr.kk ≠ 0x65)

instance UnknownSub.dec (instr : Instruction) : Decidable (UnknownSub instr) := by
  unfold UnknownSub
  infer_instance

/-! ## Helper lemmas -/

theorem exists_head_split (m : Nat) (P : Nat → Prop) :
    (∃ j, j < m + 1 ∧ P j) ↔ P 0 ∨ ∃ j, j < m ∧ P (j + 1) := by
  constructor
  · rintro ⟨j, hj, hP⟩
    cases j with
    | zero => exact Or.inl hP
    | succ j => exact Or.inr ⟨j, by omega, hP⟩
  · rintro (h | ⟨j, hj, hP⟩)
    · exact ⟨0, by omega, h⟩
    · exact ⟨j + 1, by omega, hP⟩

theorem spriteBit_zero (b : Nat) : spriteBit b 0 = decide (b / 128 % 2 = 1) := by
  rfl

theorem spriteBit_shift (b j : Nat) (hj : j ≤ 6) :
    spriteBit (b * 2 % 256) j = spriteBit b (j + 1) := by
  unfold spriteBit
  rw [decide_eq_decide]
  interval_cases j <;> norm_num <;> omega

theorem drawBits_break (k b dx dy : Nat) (disp : Nat → Bool) (vf : Nat)
    (h : 2048 ≤ dy * 64 + dx) :
    drawBits k b dx dy disp vf = (disp, vf, dx) := by
  cases k with
  | zero => rfl
  | succ n =>
    simp only [drawBits]
    rw [if_pos h]

theorem drawBits_spec :
    ∀ k, k ≤ 8 → ∀ b, b < 256 → ∀ dx dy disp vf,
    drawBits k b dx dy disp vf =
      (fun p => if ∃ j, j < min k (2048 - (dy * 64 + dx)) ∧ p = dy * 64 + dx + j ∧
                    spriteBit b j = true
                then !(disp p) else disp p,
       (if ∃ j, j < min k (2048 - (dy * 64 + dx)) ∧ spriteBit b j = true ∧
            disp (dy * 64 + dx + j) = true
        then 1 else vf),
       dx + min k (2048 - (dy * 64 + dx))) := by
  intro k
  induction k with
  | zero =>
    intro _ b _ dx dy disp vf
    have h0 : min 0 (2048 - (dy * 64 + dx)) = 0 := by omega
    simp [drawBits, h0]
  | succ n ih =>
    intro hk b hb dx dy disp vf
    by_cases hpos : 2048 ≤ dy * 64 + dx
    · have hm : min (n + 1) (2048 - (dy * 64 + dx)) = 0 := by omega
      rw [drawBits_break _ _ _ _ _ _ hpos, hm]
      simp
    · have hn8 : n ≤ 8 := by omega
      have hb2 : b * 2 % 256 < 256 := by omega
      have hm0n : min n (2048 - (dy * 64 + (dx + 1))) ≤ n := by omega
      have hm : min (n + 1) (2048 - (dy * 64 + dx)) =
          min n (2048 - (dy * 64 + (dx + 1))) + 1 := by omega
      simp only [drawBits]
      rw [if_neg hpos, hm]
      by_cases hbit : b / 128 % 2 = 1
      · rw [if_pos hbit]
        have hbit0 : spriteBit b 0 = true := by
          simp [spriteBit_zero, hbit]
        by_cases hlit : disp (dy * 64 + dx) = true
        · rw [if_pos hlit]
          rw [ih hn8 (b * 2 % 256) hb2 (dx + 1) dy (updd disp (dy * 64 + dx) false) 1]
          simp only [Prod.mk.injEq]
          refine ⟨?_, ?_, by omega⟩
          · funext p
            by_cases hp : p = dy * 64 + dx
            · subst hp
              rw [if_neg, if_pos]
              · simp [updd, hlit]
              · exact ⟨0, by omega, by omega, hbit0⟩
              · rintro ⟨j, hj, hpj, _⟩
                omega
            · have hupd : updd disp (dy * 64 + dx) false p = disp p := by
                simp [updd, hp]
              rw [hupd]
              refine if_congr ?_ rfl rfl
              rw [exists_head_split]
              constructor
              · rintro ⟨j, hj, h1, h2⟩
                refine Or.inr ⟨j, hj, by omega, ?_⟩
                rw [← spriteBit_shift b j (by omega)]
                exact h2
              · rintro (⟨h1, _⟩ | ⟨j, hj, h1, h2⟩)
                · exact absurd h1 hp
                · refine ⟨j, hj, by omega, ?_⟩
                  rw [spriteBit_shift b j (by omega)]
                  exact h2
          · rw [ite_self, if_pos]
            exact ⟨0, by omega, hbit0, by simpa using hlit⟩
        · rw [if_neg hlit]
          rw [ih hn8 (b * 2 % 256) hb2 (dx + 1) dy (updd disp (dy * 64 + dx) true) vf]
          simp only [Prod.mk.injEq]
          refine ⟨?_, ?_, by omega⟩
          · funext p
            by_cases hp : p = dy * 64 + dx
            · subst hp
              rw [if_neg, if_pos]
              · simp only [updd, if_pos rfl]
                simp [Bool.not_eq_true] at hlit
                rw [hlit]
                decide
              · exact ⟨0, by omega, by omega, hbit0⟩
              · rintro ⟨j, hj, hpj, _⟩
                omega
            · have hupd : updd disp (dy * 64 + dx) true p = disp p := by
                simp [updd, hp]
              rw [hupd]
              refine if_congr ?_ rfl rfl
              rw [exists_head_split]
              constructor
              · rintro ⟨j, hj, h1, h2⟩
                refine Or.inr ⟨j, hj, by omega, ?_⟩
                rw [← spriteBit_shift b j (by omega)]
                exact h2
              · rintro (⟨h1, _⟩ | ⟨j, hj, h1, h2⟩)
                · exact absurd h1 hp
                · refine ⟨j, hj, by omega, ?_⟩
                  rw [spriteBit_shift b j (by omega)]
                  exact h2
          · refine if_congr ?_ rfl rfl
            rw [exists_head_split]
            constructor
            · rintro ⟨j, hj, h1, h2⟩
              have hne : dy * 64 + (dx + 1) + j ≠ dy * 64 + dx := by omega
              refine Or.inr ⟨j, hj, ?_, ?_⟩
              · rw [← spriteBit_shift b j (by omega)]
                exact h1
              · have : updd disp (dy * 64 + dx) true (dy * 64 + (dx + 1) + j) =
                    disp (dy * 64 + (dx + 1) + j) := by
                  simp [updd, hne]
                rw [this] at h2
                have harith : dy * 64 + dx + (j + 1) = dy * 64 + (dx + 1) + j := by omega
                rw [harith]
                exact h2
            · rintro (⟨h1, h2⟩ | ⟨j, hj, h1, h2⟩)
              · rw [show dy * 64 + dx + 0 = dy * 64 + dx by omega] at h2
                exact absurd h2 hlit
              · have hne : dy * 64 + (dx + 1) + j ≠ dy * 64 + dx := by omega
                refine ⟨j, hj, ?_, ?_⟩
                · rw [spriteBit_shift b j (by omega)]
                  exact h1
                · have harith : dy * 64 + dx + (j + 1) = dy * 64 + (dx + 1) + j := by omega
                  rw [harith] at h2
                  simpa [updd, hne] using h2
      · rw [if_neg hbit]
        have hbit0 : spriteBit b 0 = false := by
          simp [spriteBit_zero]
          omega
        rw [ih hn8 (b * 2 % 256) hb2 (dx + 1) dy disp vf]
        simp only [Prod.mk.injEq]
        refine ⟨?_, ?_, by omega⟩
        · funext p
          refine if_congr ?_ rfl rfl
          rw [exists_head_split]
          constructor
          · rintro ⟨j, hj, h1, h2⟩
            refine Or.inr ⟨j, hj, by omega, ?_⟩
            rw [← spriteBit_shift b j (by omega)]
            exact h2
          · rintro (⟨h1, h2⟩ | ⟨j, hj, h1, h2⟩)
            · rw [hbit0] at h2
              exact absurd h2 (by simp)
            · refine ⟨j, hj, by omega, ?_⟩
              rw [spriteBit_shift b j (by omega)]
              exact h2
        · refine if_congr ?_ rfl rfl
          rw [exists_head_split]
          constructor
          · rintro ⟨j, hj, h1, h2⟩
            refine Or.inr ⟨j, hj, ?_, ?_⟩
            · rw [← spriteBit_shift b j (by omega)]
              exact h1
            · rw [show dy * 64 + dx + (j + 1) = dy * 64 + (dx + 1) + j by omega]
              exact h2
          · rintro (⟨h1, _⟩ | ⟨j, hj, h1, h2⟩)
            · rw [hbit0] at h1
              exact absurd h1 (by simp)
            · refine ⟨j, hj, ?_, ?_⟩
              · rw [spriteBit_shift b j (by omega)]
                exact h1
              · rw [show dy * 64 + (dx + 1) + j = dy * 64 + dx + (j + 1) by omega]
                exact h2

theorem drawRows_offscreen (mem : Nat → Nat) :
    ∀ k addr dx dy disp vf, 32 ≤ dy →
    drawRows mem addr k dx dy disp vf = (disp, vf) := by
  intro k
  induction k with
  | zero =>
    intro addr dx dy disp vf _
    rfl
  | succ n ih =>
    intro addr dx dy disp vf hdy
    have hbr : drawBits 8 (mem addr) dx dy disp vf = (disp, vf, dx) :=
      drawBits_break _ _ _ _ _ _ (by omega)
    simp only [drawRows, hbr]
    exact ih (addr + 1) (dx - 8) (dy + 1) disp vf (by omega)


theorem drawRows_succ (mem : Nat → Nat) (addr k dx dy : Nat) (disp : Nat → Bool) (vf : Nat) :
    drawRows mem addr (k + 1) dx dy disp vf =
      drawRows mem (addr + 1) k ((drawBits 8 (mem addr) dx dy disp vf).2.2 - 8) (dy + 1)
        (drawBits 8 (mem addr) dx dy disp vf).1 (drawBits 8 (mem addr) dx dy disp vf).2.1 :=
  rfl

theorem drawRows_spec (mem : Nat → Nat) :
    ∀ k addr dx dy disp vf, dx < 64 → dy ≤ 32 → (∀ t, t < k → mem (addr + t) < 256) →
    drawRows mem addr k dx dy disp vf =
      (fun p => if spriteHits mem addr dx dy k p then !(disp p) else disp p,
       if spriteCollide mem addr dx dy k disp then 1 else vf) := by
  intro k
  induction k with
  | zero =>
    intro addr dx dy disp vf _ _ _
    have h1 : ∀ p, ¬ spriteHits mem addr dx dy 0 p := by
      rintro p ⟨i, hi, _⟩
      omega
    have h2 : ¬ spriteCollide mem addr dx dy 0 disp := by
      rintro ⟨p, _, hh, _⟩
      exact h1 p hh
    have hd : (fun p => if spriteHits mem addr dx dy 0 p then !(disp p) else disp p) = disp := by
      funext p
      rw [if_neg (h1 p)]
    rw [hd, if_neg h2]
    rfl
  | succ n ih =>
    intro addr dx dy disp vf hdx hdy hmem
    have hb : mem addr < 256 := by simpa using hmem 0 (by omega)
    by_cases h32 : 32 ≤ dy
    · have h1 : ∀ p, ¬ spriteHits mem addr dx dy (n + 1) p := by
        rintro p ⟨i, hi, j, hj, hp, hlt, _⟩
        omega
      have h2 : ¬ spriteCollide mem addr dx dy (n + 1) disp := by
        rintro ⟨p, _, hh, _⟩
        exact h1 p hh
      have hd : (fun p => if spriteHits mem addr dx dy (n + 1) p then !(disp p) else disp p)
          = disp := by
        funext p
        rw [if_neg (h1 p)]
      rw [hd, if_neg h2]
      exact drawRows_offscreen mem (n + 1) addr dx dy disp vf h32
    · have hpos : dy * 64 + dx < 2048 := by omega
      have hbs := drawBits_spec 8 (by omega) (mem addr) hb dx dy disp vf
      rw [drawRows_succ, hbs]
      dsimp only
      by_cases hfull : dy * 64 + dx + 8 ≤ 2048
      · -- the whole row lands on the grid
        have hdx8 : dx + min 8 (2048 - (dy * 64 + dx)) - 8 = dx := by omega
        rw [hdx8]
        rw [ih (addr + 1) dx (dy + 1) _ _ hdx (by omega) (fun t ht => by
          rw [show addr + 1 + t = addr + (t + 1) by omega]
          exact hmem (t + 1) (by omega))]
        have hsplit : ∀ p, spriteHits mem addr dx dy (n + 1) p ↔
            ((∃ j, j < min 8 (2048 - (dy * 64 + dx)) ∧ p = dy * 64 + dx + j ∧
                spriteBit (mem addr) j = true) ∨
              spriteHits mem (addr + 1) dx (dy + 1) n p) := by
          intro p
          constructor
          · rintro ⟨i, hi, j, hj, hp, hlt, hbit⟩
            cases i with
            | zero =>
              refine Or.inl ⟨j, by omega, by omega, by simpa using hbit⟩
            | succ i =>
              refine Or.inr ⟨i, by omega, j, hj, by omega, hlt, ?_⟩
              rw [show addr + 1 + i = addr + (i + 1) by omega]
              exact hbit
          · rintro (⟨j, hj, hp, hbit⟩ | ⟨i, hi, j, hj, hp, hlt, hbit⟩)
            · exact ⟨0, by omega, j, by omega, by omega, by omega, by simpa using hbit⟩
            · refine ⟨i + 1, by omega, j, hj, by omega, hlt, ?_⟩
              rw [show addr + (i + 1) = addr + 1 + i by omega]
              exact hbit
        have hdisj : ∀ p, (∃ j, j < min 8 (2048 - (dy * 64 + dx)) ∧ p = dy * 64 + dx + j ∧
              spriteBit (mem addr) j = true) →
            spriteHits mem (addr + 1) dx (dy + 1) n p → False := by
          rintro p ⟨j, hj, hp, _⟩ ⟨i, hi, j2, hj2, hp2, _, _⟩
          omega
        simp only [Prod.mk.injEq]
        refine ⟨?_, ?_⟩
        · funext p
          by_cases hrow : ∃ j, j < min 8 (2048 - (dy * 64 + dx)) ∧ p = dy * 64 + dx + j ∧
              spriteBit (mem addr) j = true
          · have hrest : ¬ spriteHits mem (addr + 1) dx (dy + 1) n p :=
              fun hr => hdisj p hrow hr
            rw [if_neg hrest, if_pos hrow, if_pos ((hsplit p).mpr (Or.inl hrow))]
          · rw [if_neg hrow]
            refine if_congr ?_ rfl rfl
            constructor
            · exact fun hr => (hsplit p).mpr (Or.inr hr)
            · intro h
              rcases (hsplit p).mp h with hr | hr
              · exact absurd hr hrow
              · exact hr
        · have hcol : spriteCollide mem (addr + 1) dx (dy + 1) n
              (fun p => if ∃ j, j < min 8 (2048 - (dy * 64 + dx)) ∧ p = dy * 64 + dx + j ∧
                  spriteBit (mem addr) j = true
                then !(disp p) else disp p) ↔
              spriteCollide mem (addr + 1) dx (dy + 1) n disp := by
            constructor
            · rintro ⟨p, hplt, hh, hd⟩
              refine ⟨p, hplt, hh, ?_⟩
              replace hd : (if ∃ j, j < min 8 (2048 - (dy * 64 + dx)) ∧
                  p = dy * 64 + dx + j ∧ spriteBit (mem addr) j = true
                then !(disp p) else disp p) = true := hd
              rw [if_neg (fun hrow => hdisj p hrow hh)] at hd
              exact hd
            · rintro ⟨p, hplt, hh, hd⟩
              refine ⟨p, hplt, hh, ?_⟩
              show (if ∃ j, j < min 8 (2048 - (dy * 64 + dx)) ∧
                  p = dy * 64 + dx + j ∧ spriteBit (mem addr) j = true
                then !(disp p) else disp p) = true
              rw [if_neg (fun hrow => hdisj p hrow hh)]
              exact hd
          have hcolsplit : spriteCollide mem addr dx dy (n + 1) disp ↔
              ((∃ j, j < min 8 (2048 - (dy * 64 + dx)) ∧ spriteBit (mem addr) j = true ∧
                  disp (dy * 64 + dx + j) = true) ∨
                spriteCollide mem (addr + 1) dx (dy + 1) n disp) := by
            constructor
            · rintro ⟨p, hplt, hh, hd⟩
              rcases (hsplit p).mp hh with ⟨j, hj, hp, hbit⟩ | hrest
              · refine Or.inl ⟨j, hj, hbit, ?_⟩
                rw [← hp]
                exact hd
              · exact Or.inr ⟨p, hplt, hrest, hd⟩
            · rintro (⟨j, hj, hbit, hd⟩ | ⟨p, hplt, hrest, hd⟩)
              · refine ⟨dy * 64 + dx + j, by omega, ?_, hd⟩
                exact (hsplit _).mpr (Or.inl ⟨j, hj, rfl, hbit⟩)
              · exact ⟨p, hplt, (hsplit p).mpr (Or.inr hrest), hd⟩
          simp only [hcol]
          by_cases hc2 : spriteCollide mem (addr + 1) dx (dy + 1) n disp
          · rw [if_pos hc2, if_pos ((hcolsplit).mpr (Or.inr hc2))]
          · rw [if_neg hc2]
            by_cases hrowc : ∃ j, j < min 8 (2048 - (dy * 64 + dx)) ∧
                spriteBit (mem addr) j = true ∧ disp (dy * 64 + dx + j) = true
            · rw [if_pos hrowc, if_pos ((hcolsplit).mpr (Or.inl hrowc))]
            · rw [if_neg hrowc, if_neg (fun h => by
                rcases (hcolsplit).mp h with hr | hr
                · exact hrowc hr
                · exact hc2 hr)]
      · -- the row is clipped at the end of the grid, which forces dy = 31
        rw [drawRows_offscreen mem n (addr + 1) _ (dy + 1) _ _ (by omega)]
        have hsplit : ∀ p, spriteHits mem addr dx dy (n + 1) p ↔
            (∃ j, j < min 8 (2048 - (dy * 64 + dx)) ∧ p = dy * 64 + dx + j ∧
              spriteBit (mem addr) j = true) := by
          intro p
          constructor
          · rintro ⟨i, hi, j, hj, hp, hlt, hbit⟩
            cases i with
            | zero =>
              refine ⟨j, by omega, by omega, by simpa using hbit⟩
            | succ i =>
              exfalso
              omega
          · rintro ⟨j, hj, hp, hbit⟩
            exact ⟨0, by omega, j, by omega, by omega, by omega, by simpa using hbit⟩
        have hcolsplit : spriteCollide mem addr dx dy (n + 1) disp ↔
            (∃ j, j < min 8 (2048 - (dy * 64 + dx)) ∧ spriteBit (mem addr) j = true ∧
              disp (dy * 64 + dx + j) = true) := by
          constructor
          · rintro ⟨p, hplt, hh, hd⟩
            rcases (hsplit p).mp hh with ⟨j, hj, hp, hbit⟩
            refine ⟨j, hj, hbit, ?_⟩
            rw [← hp]
            exact hd
          · rintro ⟨j, hj, hbit, hd⟩
            refine ⟨dy * 64 + dx + j, by omega, ?_, hd⟩
            exact (hsplit _).mpr ⟨j, hj, rfl, hbit⟩
        simp only [Prod.mk.injEq]
        refine ⟨?_, ?_⟩
        · funext p
          refine if_congr ?_ rfl rfl
          exact (hsplit p).symm
        · refine if_congr ?_ rfl rfl
          exact hcolsplit.symm

theorem Instruction.x_lt (ins : Instruction) : ins.x < 16 :=
  Nat.mod_lt _ (by omega)

theorem Instruction.y_lt (ins : Instruction) : ins.y < 16 :=
  Nat.mod_lt _ (by omega)

theorem decode_0 (rnd : Nat) (c : Chip8) (instr : Instruction)
    (h : instr.first_nibble = 0x0) :
    decode_and_execute rnd c instr = op_table_0 c instr := by
  simp [decode_and_execute, h]

theorem decode_8 (rnd : Nat) (c : Chip8) (instr : Instruction)
    (h : instr.first_nibble = 0x8) :
    decode_and_execute rnd c instr = op_table_8 c instr := by
  simp [decode_and_execute, h]

theorem decode_d (rnd : Nat) (c : Chip8) (instr : Instruction)
    (h : instr.first_nibble = 0xD) :
    decode_and_execute rnd c instr = op_dxyn c instr := by
  simp [decode_and_execute, h]

theorem decode_e (rnd : Nat) (c : Chip8) (instr : Instruction)
    (h : instr.first_nibble = 0xE) :
    decode_and_execute rnd c instr = op_table_e c instr := by
  simp [decode_and_execute, h]

theorem decode_f (rnd : Nat) (c : Chip8) (instr : Instruction)
    (h : instr.first_nibble = 0xF) :
    decode_and_execute rnd c instr = op_table_f c instr := by
  simp [decode_and_execute, h]

/-- Full characterization of `op_dxyn` (draw plus refresh): which cells
toggle, the collision flag, and the frame conditions. -/
theorem draw_spec (c : Chip8) (instr : Instruction) (hwf : c.Wf)
    (hn : c.i + instr.last_nibble ≤ 4096) :
    (op_dxyn c instr).display = (fun p =>
      if spriteHits c.memory c.i (c.v instr.x % 64) (c.v instr.y % 32) instr.last_nibble p
      then !(c.display p) else c.display p) ∧
    (op_dxyn c instr).v 15 = (if spriteCollide c.memory c.i (c.v instr.x % 64)
      (c.v instr.y % 32) instr.last_nibble c.display then 1 else 0) ∧
    (∀ r, r ≠ 15 → (op_dxyn c instr).v r = c.v r) ∧
    (op_dxyn c instr).memory = c.memory ∧ (op_dxyn c instr).i = c.i ∧
    (op_dxyn c instr).pc = c.pc ∧ (op_dxyn c instr).stack = c.stack ∧
    (op_dxyn c instr).input = c.input ∧ (op_dxyn c instr).c48_mode = c.c48_mode ∧
    (op_dxyn c instr).delay_timer = c.delay_timer ∧
    (op_dxyn c instr).sound_timer = c.sound_timer := by
  have hrows := drawRows_spec c.memory instr.last_nibble c.i (c.v instr.x % 64)
    (c.v instr.y % 32) c.display 0 (by omega) (by omega)
    (fun t ht => hwf.1 (c.i + t) (by omega))
  simp only [op_dxyn, Chip8.draw]
  rw [hrows]
  refine ⟨rfl, by simp [updf], ?_, ?_, ?_, ?_, ?_, ?_, ?_, ?_, ?_⟩
  · intro r hr
    simp [updf, hr]
  all_goals trivial

/-- Any sub-dispatched instruction with an unmatched sub-code leaves the
machine state untouched: every default branch calls
`handle_unknown_instr`, which only prints. -/
theorem decode_unknown_sub (rnd : Nat) (c : Chip8) (instr : Instruction)
    (h : UnknownSub instr) :
    decode_and_execute rnd c instr = c := by
  rcases h with ⟨h0, hk1, hk2⟩ | ⟨h8, ha, hb, hc, hd, he, hf, hg, hh, hi⟩ |
    ⟨he0, hk1, hk2⟩ | ⟨hf0, hk1, hk2, hk3, hk4, hk5, hk6, hk7, hk8, hk9⟩
  · rw [decode_0 rnd c instr h0]
    simp [op_table_0, hk1, hk2, Chip8.handle_unknown_instr]
  · rw [decode_8 rnd c instr h8]
    simp [op_table_8, ha, hb, hc, hd, he, hf, hg, hh, hi, Chip8.handle_unknown_instr]
  · rw [decode_e rnd c instr he0]
    simp [op_table_e, hk1, hk2, Chip8.handle_unknown_instr]
  · rw [decode_f rnd c instr hf0]
    simp [op_table_f, hk1, hk2, hk3, hk4, hk5, hk6, hk7, hk8, hk9,
      Chip8.handle_unknown_instr]

theorem headD_mem (l : List Nat) (h : l ≠ []) : l.headD 0 ∈ l := by
  cases l with
  | nil => exact absurd rfl h
  | cons a t => simp

/-- The machine right after construction (`Chip8::new`), before font and
program loading: the all-zero state used as the base of the concrete
test machines below. -/
def baseC8 : Chip8 where
  memory := fun _ => 0
  pc := 0x200
  v := fun _ => 0
  i := 0
  stack := []
  display := fun _ => false
  refresh := false
  delay_timer := 0
  sound_timer := 0
  input := []
  c48_mode := false

/-- Claim C5: an instruction that reaches one of the sub-dispatched
family handlers (0x0, 0x8, 0xE, 0xF) but matches no defined sub-code
changes nothing in the machine state — memory, registers, address
register, stack, display, timers, input — except that the program
counter has advanced by 2 past the instruction (the single fetch
increment).  The diagnostic print is I/O outside the state model and the
step is a total function, so the condition is never fatal. -/
theorem C5_unknown_instr_noop (rnd : Nat) (c : Chip8) (h : UnknownSub c.fetched) :
    Chip8.step rnd c = { c with pc := pc_increment c.pc } := by
  unfold Chip8.step
  exact decode_unknown_sub rnd _ _ h

/-- Concrete machine about to fetch 0x8008, an undefined ALU sub-code. -/
def cC5 : Chip8 :=
  { baseC8 with memory := updf (updf baseC8.memory 0x200 0x80) 0x201 0x08 }

theorem C5_witness :
    UnknownSub (Chip8.fetched cC5) ∧
      Chip8.step 0 cC5 = { cC5 with pc := pc_increment cC5.pc } :=
  ⟨by decide, C5_unknown_instr_noop 0 cC5 (by decide)⟩

/-- Claim C6: executing 0x00EE (return from subroutine) on an empty call
stack sets the program counter to 0 — `Vec::pop` yields `None` and
`unwrap_or_default` supplies address 0 — and leaves every other part of
the machine state unchanged (the state equality fixes all fields). -/
theorem C6_ret_empty_stack (rnd : Nat) (c : Chip8) (instr : Instruction)
    (hfam : instr.first_nibble = 0x0) (hkk : instr.kk = 0xEE) (hstack : c.stack = []) :
    decode_and_execute rnd c instr = { c with pc := 0 } := by
  rw [decode_0 rnd c instr hfam]
  simp [op_table_0, hkk, hstack]

/-- Concrete machine with an empty stack and a nonzero program counter. -/
def cC6 : Chip8 := { baseC8 with pc := 0x234 }

theorem C6_witness :
    Instruction.first_nibble ⟨0x00EE⟩ = 0x0 ∧ Instruction.kk ⟨0x00EE⟩ = 0xEE ∧
      cC6.stack = [] ∧ decode_and_execute 0 cC6 ⟨0x00EE⟩ = { cC6 with pc := 0 } :=
  ⟨by decide, by decide, rfl,
    C6_ret_empty_stack 0 cC6 ⟨0x00EE⟩ (by decide) (by decide) rfl⟩

/-- Claim C10: with an empty input set, the wait-for-key instruction
0xFX0A writes 0 into register X on that very step
(`input.first().unwrap_or(&0)`), rather than leaving the register
untouched until a key arrives. -/
theorem C10_wait_key_writes_zero (rnd : Nat) (c : Chip8) (instr : Instruction)
    (hfam : instr.first_nibble = 0xF) (hkk : instr.kk = 0x0A) (hempty : c.input = []) :
    (decode_and_execute rnd c instr).v instr.x = 0 := by
  rw [decode_f rnd c instr hfam]
  simp [op_table_f, hkk, hempty, Chip8.set_v, updf, to_u8_or_0, pc_decrement_if]

/-- Concrete machine with no key pressed and register 3 holding 7. -/
def cC10 : Chip8 := { baseC8 with v := updf baseC8.v 3 7 }

theorem C10_witness :
    Instruction.first_nibble ⟨0xF30A⟩ = 0xF ∧ Instruction.kk ⟨0xF30A⟩ = 0x0A ∧
      cC10.input = [] ∧ cC10.v 3 = 7 ∧
      (decode_and_execute 0 cC10 ⟨0xF30A⟩).v (Instruction.x ⟨0xF30A⟩) = 0 :=
  ⟨by decide, by decide, rfl, by decide,
    C10_wait_key_writes_zero 0 cC10 ⟨0xF30A⟩ (by decide) (by decide) rfl⟩

/-- Concrete machine for the shift instructions: register 1 holds 3 (an
odd value), register 2 holds 0; compatibility mode is on so the shifts
act in place. -/
def cC2 : Chip8 := { baseC8 with v := updf baseC8.v 1 3, c48_mode := true }

/-- Claim C2 (code bug, shift flags): 0x8106 shifts register 1 right —
value 3 becomes 1 and the shifted-out bit is 1, yet the flag register is
set to 0; 0x820E shifts register 2 left — value 0 has a 0 top bit, yet
the flag register is set to 1.  The code derives the flag from the
boolean returned by `overflowing_shr`/`overflowing_shl`, which only
reports a shift amount of at least 8 and is therefore constant for the
shift count 1. -/
theorem C2_bug_shift_flag_constant :
    (decode_and_execute 0 cC2 ⟨0x8106⟩).v 1 = 1 ∧
    cC2.v 1 % 2 = 1 ∧
    (decode_and_execute 0 cC2 ⟨0x8106⟩).v 15 = 0 ∧
    cC2.v 2 / 128 % 2 = 0 ∧
    (decode_and_execute 0 cC2 ⟨0x820E⟩).v 15 = 1 := by
  decide

/-- Claim C7: 0xFX1E adds register X into the 16-bit address register
with wrapping, and additionally sets the flag register to 1 exactly when
the resulting address register strictly exceeds 0x1000 (the flag is left
untouched otherwise). -/
theorem C7_add_i_overflow_flag (rnd : Nat) (c : Chip8) (instr : Instruction)
    (hwf : c.Wf) (hfam : instr.first_nibble = 0xF) (hkk : instr.kk = 0x1E) :
    (decode_and_execute rnd c instr).i = (c.i + c.v instr.x) % 65536 ∧
    (0x1000 < (c.i + c.v instr.x) % 65536 → (decode_and_execute rnd c instr).v 15 = 1) ∧
    ((c.i + c.v instr.x) % 65536 ≤ 0x1000 →
      (decode_and_execute rnd c instr).v 15 = c.v 15) := by
  have hx : c.v instr.x < 256 := hwf.2.1 instr.x instr.x_lt
  have h16 : to_u16_or_0 (c.v instr.x) = c.v instr.x := by
    unfold to_u16_or_0
    rw [if_pos (by omega)]
  rw [decode_f rnd c instr hfam]
  simp only [op_table_f, hkk, Chip8.add_i, Chip8.set_v, h16]
  norm_num
  refine ⟨?_, ?_, ?_⟩
  · split <;> rfl
  · intro hov
    split
    · simp [updf, to_u8_or_0]
    · omega
  · intro hle
    split
    · omega
    · rfl

theorem baseC8_wf : baseC8.Wf := by
  refine ⟨fun a _ => ?_, fun r _ => ?_, ?_, ?_, ?_⟩ <;> simp [baseC8]

theorem updf_lt (f : Nat → Nat) (k v B : Nat) (hf : ∀ a, f a < B) (hv : v < B) :
    ∀ a, updf f k v a < B := by
  intro a
  unfold updf
  split
  · exact hv
  · exact hf a

/-- Concrete machine for 0xF21E: address register 0xFFF, register 2
holding 2, so the add lands on 0x1001, just past the 0x1000 threshold. -/
def cC7 : Chip8 := { baseC8 with i := 0xFFF, v := updf baseC8.v 2 2 }

theorem cC7_wf : cC7.Wf := by
  refine ⟨fun a _ => ?_, fun r _ => ?_, ?_, ?_, ?_⟩
  · simp [cC7, baseC8]
  · exact updf_lt _ 2 2 256 (fun a => by simp [baseC8]) (by omega) r
  · simp [cC7, baseC8]
  · simp [cC7, baseC8]
  · intro k hk
    simp [cC7, baseC8] at hk

theorem C7_witness :
    Instruction.first_nibble ⟨0xF21E⟩ = 0xF ∧ Instruction.kk ⟨0xF21E⟩ = 0x1E ∧
      ((decode_and_execute 0 cC7 ⟨0xF21E⟩).i =
          (cC7.i + cC7.v (Instruction.x ⟨0xF21E⟩)) % 65536 ∧
        (0x1000 < (cC7.i + cC7.v (Instruction.x ⟨0xF21E⟩)) % 65536 →
          (decode_and_execute 0 cC7 ⟨0xF21E⟩).v 15 = 1) ∧
        ((cC7.i + cC7.v (Instruction.x ⟨0xF21E⟩)) % 65536 ≤ 0x1000 →
          (decode_and_execute 0 cC7 ⟨0xF21E⟩).v 15 = cC7.v 15)) :=
  ⟨by decide, by decide,
    C7_add_i_overflow_flag 0 cC7 ⟨0xF21E⟩ cC7_wf (by decide) (by decide)⟩

/-- Claim C8: the wait-for-key instruction 0xFX0A, taken through a full
fetch-and-execute step.  With an empty input set the program counter is
rolled back by 2, so the step leaves the program counter exactly where
it started and the same instruction re-executes next step.  With a key
pressed the program counter only gets the normal fetch increment and a
pressed key value (the first of the input list) is loaded into
register X. -/
theorem C8_wait_key (rnd : Nat) (c : Chip8) (hwf : c.Wf)
    (hfam : (Chip8.fetched c).first_nibble = 0xF)
    (hkk : (Chip8.fetched c).kk = 0x0A) :
    (c.input = [] → (Chip8.step rnd c).pc = c.pc) ∧
    (c.input ≠ [] → (Chip8.step rnd c).pc = pc_increment c.pc ∧
      (Chip8.step rnd c).v ((Chip8.fetched c).x) ∈ c.input) := by
  have hpc : c.pc < 65536 := hwf.2.2.1
  have hstep : Chip8.step rnd c =
      decode_and_execute rnd { c with pc := pc_increment c.pc } (Chip8.fetched c) := rfl
  rw [hstep, decode_f _ _ _ hfam]
  simp only [op_table_f, hkk]
  norm_num
  constructor
  · intro hemp
    simp [hemp, pc_decrement_if, pc_increment, Chip8.set_v]
    omega
  · intro hne
    have hisEmpty : c.input.isEmpty = false := by
      simpa [List.isEmpty_iff] using hne
    have hk : c.input.headD 0 < 256 := hwf.2.2.2.2 _ (headD_mem _ hne)
    constructor
    · simp [hisEmpty, pc_decrement_if, Chip8.set_v]
    · have hk2 : c.input.head?.getD 0 < 256 := by
        simpa [List.headD_eq_head?_getD] using hk
      simp [hisEmpty, Chip8.set_v, updf, to_u8_or_0, hk2]
      simpa [List.headD_eq_head?_getD] using headD_mem _ hne

/-- Concrete machine about to fetch 0xF30A with no key pressed. -/
def cC8 : Chip8 :=
  { baseC8 with memory := updf (updf baseC8.memory 0x200 0xF3) 0x201 0x0A, v := updf baseC8.v 3 7 }

theorem cC8_wf : cC8.Wf := by
  refine ⟨fun a _ => ?_, fun r _ => ?_, ?_, ?_, ?_⟩
  · exact updf_lt _ 0x201 0x0A 256
      (updf_lt _ 0x200 0xF3 256 (fun a => by simp [baseC8]) (by omega)) (by omega) a
  · exact updf_lt _ 3 7 256 (fun a => by simp [baseC8]) (by omega) r
  · simp [cC8, baseC8]
  · simp [cC8, baseC8]
  · intro k hk
    simp [cC8, baseC8] at hk

theorem C8_witness :
    (Chip8.fetched cC8).first_nibble = 0xF ∧ (Chip8.fetched cC8).kk = 0x0A ∧
      ((cC8.input = [] → (Chip8.step 0 cC8).pc = cC8.pc) ∧
        (cC8.input ≠ [] → (Chip8.step 0 cC8).pc = pc_increment cC8.pc ∧
          (Chip8.step 0 cC8).v ((Chip8.fetched cC8).x) ∈ cC8.input)) :=
  ⟨by decide, by decide, C8_wait_key 0 cC8 cC8_wf (by decide) (by decide)⟩

/-- Claim C9: 0xFX33 writes the three decimal digits of register X —
hundreds, tens, ones — to the memory cells at the address register and
the two cells after it. -/
theorem C9_bcd (rnd : Nat) (c : Chip8) (instr : Instruction) (hwf : c.Wf)
    (hfam : instr.first_nibble = 0xF) (hkk : instr.kk = 0x33)
    (hbound : c.i + 2 < 4096) :
    (decode_and_execute rnd c instr).memory c.i = c.v instr.x / 100 % 10 ∧
    (decode_and_execute rnd c instr).memory (c.i + 1) = c.v instr.x / 10 % 10 ∧
    (decode_and_execute rnd c instr).memory (c.i + 2) = c.v instr.x % 10 := by
  have hx : c.v instr.x < 256 := hwf.2.1 instr.x instr.x_lt
  have h1 : (c.i + 1) % 65536 = c.i + 1 := by omega
  have h2 : (c.i + 2) % 65536 = c.i + 2 := by omega
  rw [decode_f rnd c instr hfam]
  simp only [op_table_f, hkk]
  norm_num
  refine ⟨?_, ?_, ?_⟩ <;> simp only [updf, h1, h2] <;> norm_num <;> omega

/-- Concrete machine with register 4 holding 255 and the address
register at 0x300: the BCD digits land as 2, 5, 5. -/
def cC9 : Chip8 := { baseC8 with v := updf baseC8.v 4 255, i := 0x300 }

theorem cC9_wf : cC9.Wf := by
  refine ⟨fun a _ => ?_, fun r _ => ?_, ?_, ?_, ?_⟩
  · simp [cC9, baseC8]
  · exact updf_lt _ 4 255 256 (fun a => by simp [baseC8]) (by omega) r
  · simp [cC9, baseC8]
  · simp [cC9, baseC8]
  · intro k hk
    simp [cC9, baseC8] at hk

theorem C9_witness :
    Instruction.first_nibble ⟨0xF433⟩ = 0xF ∧ Instruction.kk ⟨0xF433⟩ = 0x33 ∧
      cC9.i + 2 < 4096 ∧
      (decode_and_execute 0 cC9 ⟨0xF433⟩).memory 0x300 = 2 ∧
      (decode_and_execute 0 cC9 ⟨0xF433⟩).memory 0x301 = 5 ∧
      (decode_and_execute 0 cC9 ⟨0xF433⟩).memory 0x302 = 5 := by
  have h := C9_bcd 0 cC9 ⟨0xF433⟩ cC9_wf (by decide) (by decide) (by decide)
  refine ⟨by decide, by decide, by decide, ?_, ?_, ?_⟩
  · have := h.1
    simpa [cC9, baseC8, updf, Instruction.x] using this
  · have := h.2.1
    simpa [cC9, baseC8, updf, Instruction.x] using this
  · have := h.2.2
    simpa [cC9, baseC8, updf, Instruction.x] using this

theorem mk8_fields (x y k : Nat) (hx : x < 16) (hy : y < 16) (hk : k < 16) :
    Instruction.first_nibble ⟨0x8000 + x * 256 + y * 16 + k⟩ = 8 ∧
    Instruction.x ⟨0x8000 + x * 256 + y * 16 + k⟩ = x ∧
    Instruction.y ⟨0x8000 + x * 256 + y * 16 + k⟩ = y ∧
    Instruction.last_nibble ⟨0x8000 + x * 256 + y * 16 + k⟩ = k := by
  unfold Instruction.first_nibble Instruction.x Instruction.y Instruction.last_nibble
  dsimp only
  refine ⟨?_, ?_, ?_, ?_⟩ <;> omega

/-- Claim C3: in the two shift instructions 8XY6 and 8XYE, the copy of
register Y into register X is gated by the compatibility flag: with
`c48_mode` off, Y is first copied into X and then X is shifted, so the
result is Y shifted by one; with `c48_mode` on, X shifts in place and
register Y is ignored (the result depends only on the old X). -/
theorem C3_shift_compat_mode (c : Chip8) (hwf : c.Wf) (x y : Nat)
    (hx : x < 16) (hy : y < 16) :
    (c.c48_mode = false →
      (decode_and_execute 0 c ⟨0x8000 + x * 256 + y * 16 + 0x6⟩).v x = c.v y / 2 ∧
      (decode_and_execute 0 c ⟨0x8000 + x * 256 + y * 16 + 0xE⟩).v x = c.v y * 2 % 256) ∧
    (c.c48_mode = true →
      (decode_and_execute 0 c ⟨0x8000 + x * 256 + y * 16 + 0x6⟩).v x = c.v x / 2 ∧
      (decode_and_execute 0 c ⟨0x8000 + x * 256 + y * 16 + 0xE⟩).v x = c.v x * 2 % 256) := by
  obtain ⟨hf6, hx6, hy6, hl6⟩ := mk8_fields x y 0x6 hx hy (by omega)
  obtain ⟨hfE, hxE, hyE, hlE⟩ := mk8_fields x y 0xE hx hy (by omega)
  have hvx : c.v x < 256 := hwf.2.1 x hx
  have hvy : c.v y < 256 := hwf.2.1 y hy
  rw [decode_8 0 c ⟨0x8000 + x * 256 + y * 16 + 0x6⟩ hf6,
    decode_8 0 c ⟨0x8000 + x * 256 + y * 16 + 0xE⟩ hfE]
  simp only [op_table_8, hx6, hy6, hl6, hxE, hyE, hlE]
  norm_num
  constructor
  · intro hmode
    have ha : c.v y / 2 < 256 := by omega
    have hb : c.v y * 2 % 256 < 256 := by omega
    simp only [hmode, Bool.not_false, if_true, u8_overflowing_shr, u8_overflowing_shl,
      Chip8.set_register_flag_if_else_0, Chip8.set_v, updf, to_u8_or_0]
    norm_num [hvy, ha, hb]
  · intro hmode
    have ha : c.v x / 2 < 256 := by omega
    have hb : c.v x * 2 % 256 < 256 := by omega
    simp only [hmode, Bool.not_true, if_false, u8_overflowing_shr, u8_overflowing_shl,
      Chip8.set_register_flag_if_else_0, Chip8.set_v, updf, to_u8_or_0]
    norm_num [hvx, ha, hb]

/-- Concrete machine for the shifts: register 2 holds 6, compatibility
mode off. -/
def cC3 : Chip8 := { baseC8 with v := updf baseC8.v 2 6 }

theorem cC3_wf : cC3.Wf := by
  refine ⟨fun a _ => ?_, fun r _ => ?_, ?_, ?_, ?_⟩
  · simp [cC3, baseC8]
  · exact updf_lt _ 2 6 256 (fun a => by simp [baseC8]) (by omega) r
  · simp [cC3, baseC8]
  · simp [cC3, baseC8]
  · intro k hk
    simp [cC3, baseC8] at hk

theorem C3_witness :
    (1 : Nat) < 16 ∧ (2 : Nat) < 16 ∧
      ((cC3.c48_mode = false →
        (decode_and_execute 0 cC3 ⟨0x8000 + 1 * 256 + 2 * 16 + 0x6⟩).v 1 = cC3.v 2 / 2 ∧
        (decode_and_execute 0 cC3 ⟨0x8000 + 1 * 256 + 2 * 16 + 0xE⟩).v 1 =
          cC3.v 2 * 2 % 256) ∧
      (cC3.c48_mode = true →
        (decode_and_execute 0 cC3 ⟨0x8000 + 1 * 256 + 2 * 16 + 0x6⟩).v 1 = cC3.v 1 / 2 ∧
        (decode_and_execute 0 cC3 ⟨0x8000 + 1 * 256 + 2 * 16 + 0xE⟩).v 1 =
          cC3.v 1 * 2 % 256)) :=
  ⟨by omega, by omega, C3_shift_compat_mode cC3 cC3_wf 1 2 (by omega) (by omega)⟩

/-- Claim C1 (amended): the draw loop stops writing the remaining bits
of a sprite row only when the running row-major index reaches the end of
the whole 2048-cell grid; a bit `j` of sprite row `i` toggles the cell
at index `(y0 + i) * 64 + x0 + j` whenever that index is below 2048, so
bits placed past the right edge of any row other than the bottom one
land at the start of the next line instead of being clipped. -/
theorem C1_amended_draw_clips_only_at_grid_end (rnd : Nat) (c : Chip8)
    (instr : Instruction) (hwf : c.Wf) (hfam : instr.first_nibble = 0xD)
    (hn : c.i + instr.last_nibble ≤ 4096) (p : Nat) :
    (decode_and_execute rnd c instr).display p =
      if spriteHits c.memory c.i (c.v instr.x % 64) (c.v instr.y % 32)
          instr.last_nibble p
      then !(c.display p) else c.display p := by
  rw [decode_d rnd c instr hfam, (draw_spec c instr hwf hn).1]

/-- Concrete machine for the clipping question: a one-row sprite 0xFF
drawn at x = 60, y = 0 from address 0x300. -/
def cC1 : Chip8 :=
  { baseC8 with v := updf baseC8.v 0 60, i := 0x300, memory := updf baseC8.memory 0x300 0xFF }

theorem cC1_wf : cC1.Wf := by
  refine ⟨fun a _ => ?_, fun r _ => ?_, ?_, ?_, ?_⟩
  · exact updf_lt _ 0x300 0xFF 256 (fun a => by simp [baseC8]) (by omega) a
  · exact updf_lt _ 0 60 256 (fun a => by simp [baseC8]) (by omega) r
  · simp [cC1, baseC8]
  · simp [cC1, baseC8]
  · intro k hk
    simp [cC1, baseC8] at hk

/-- Claim C1 (counterexample): the sprite row sits at row 0, columns
60..67; its bits past the right edge are written at index 64 — row 1,
column 0 — so a cell of a different row is toggled, contradicting the
claim that the row stops at the display edge. -/
theorem C1_cex_draw_wraps_to_next_row :
    cC1.v 0 % 64 = 60 ∧ cC1.v 1 % 32 = 0 ∧
    Instruction.last_nibble ⟨0xD011⟩ = 1 ∧
    cC1.display (1 * 64 + 0) = false ∧
    (decode_and_execute 0 cC1 ⟨0xD011⟩).display (1 * 64 + 0) = true :=
  ⟨by decide, by decide, by decide, rfl, by decide⟩

theorem C1_amended_witness :
    cC1.Wf ∧ Instruction.first_nibble ⟨0xD011⟩ = 0xD ∧
      cC1.i + Instruction.last_nibble ⟨0xD011⟩ ≤ 4096 ∧
      ((decode_and_execute 0 cC1 ⟨0xD011⟩).display 64 =
        if spriteHits cC1.memory cC1.i (cC1.v (Instruction.x ⟨0xD011⟩) % 64)
            (cC1.v (Instruction.y ⟨0xD011⟩) % 32) (Instruction.last_nibble ⟨0xD011⟩) 64
        then !(cC1.display 64) else cC1.display 64) :=
  ⟨cC1_wf, by decide, by decide,
    C1_amended_draw_clips_only_at_grid_end 0 cC1 ⟨0xD011⟩ cC1_wf (by decide) (by decide) 64⟩

theorem spriteHits_lt_2048 (mem : Nat → Nat) (addr x0 y0 n p : Nat)
    (h : spriteHits mem addr x0 y0 n p) : p < 2048 := by
  obtain ⟨i, _, j, _, _, hlt, _⟩ := h
  exact hlt

/-- Claim C4 (amended): drawing the same sprite twice at the same
coordinates (coordinate registers distinct from the flag register, so
the coordinates really are the same across the two draws).  Every pixel
the first draw turned on is off again after the second draw.  If at
least one on-screen sprite bit covers a cell that was unlit before the
first draw — in particular any non-fully-clipped, non-empty sprite on a
blank display — then the second draw reports a collision in the flag
register.  A single draw on a blank display leaves the flag register 0. -/
theorem C4_amended_double_draw (rnd : Nat) (c : Chip8) (instr : Instruction)
    (hwf : c.Wf) (hfam : instr.first_nibble = 0xD)
    (hn : c.i + instr.last_nibble ≤ 4096)
    (hx15 : instr.x ≠ 15) (hy15 : instr.y ≠ 15) :
    (∀ p, (decode_and_execute rnd c instr).display p = true → c.display p = false →
      (decode_and_execute rnd (decode_and_execute rnd c instr) instr).display p = false) ∧
    ((∃ p, spriteHits c.memory c.i (c.v instr.x % 64) (c.v instr.y % 32)
        instr.last_nibble p ∧ c.display p = false) →
      (decode_and_execute rnd (decode_and_execute rnd c instr) instr).v 15 = 1) ∧
    ((∀ p, c.display p = false) → (decode_and_execute rnd c instr).v 15 = 0) := by
  rw [decode_d rnd c instr hfam]
  rw [decode_d rnd (op_dxyn c instr) instr hfam]
  have h1 := draw_spec c instr hwf hn
  have hd1 := h1.1
  have hv15 := h1.2.1
  have hframeV := h1.2.2.1
  have hmem1 := h1.2.2.2.1
  have hi1 := h1.2.2.2.2.1
  have hpc1 := h1.2.2.2.2.2.1
  have hstk1 := h1.2.2.2.2.2.2.1
  have hin1 := h1.2.2.2.2.2.2.2.1
  have hwf1 : (op_dxyn c instr).Wf := by
    obtain ⟨hm, hv, hpc, hi, hin⟩ := hwf
    refine ⟨?_, ?_, ?_, ?_, ?_⟩
    · rw [hmem1]
      exact hm
    · intro r hr
      by_cases h15 : r = 15
      · subst h15
        rw [hv15]
        split <;> omega
      · rw [hframeV r h15]
        exact hv r hr
    · rw [hpc1]
      exact hpc
    · rw [hi1]
      exact hi
    · rw [hin1]
      exact hin
  have hn1 : (op_dxyn c instr).i + instr.last_nibble ≤ 4096 := by
    rw [hi1]
    exact hn
  have h2 := draw_spec (op_dxyn c instr) instr hwf1 hn1
  have hvx : (op_dxyn c instr).v instr.x = c.v instr.x := hframeV instr.x hx15
  have hvy : (op_dxyn c instr).v instr.y = c.v instr.y := hframeV instr.y hy15
  have hd2 := h2.1
  have hv15b := h2.2.1
  rw [hmem1, hi1, hvx, hvy] at hd2 hv15b
  refine ⟨?_, ?_, ?_⟩
  · intro p hset hoff
    simp only [hd1] at hset
    simp only [hd2, hd1]
    by_cases hh : spriteHits c.memory c.i (c.v instr.x % 64) (c.v instr.y % 32)
        instr.last_nibble p
    · simp [hh, hoff]
    · simp [hh] at hset
      simp [hset] at hoff
  · rintro ⟨p0, hh, hoff⟩
    have hcol : spriteCollide c.memory c.i (c.v instr.x % 64) (c.v instr.y % 32)
        instr.last_nibble (op_dxyn c instr).display := by
      refine ⟨p0, spriteHits_lt_2048 _ _ _ _ _ _ hh, hh, ?_⟩
      simp only [hd1]
      simp [hh, hoff]
    rw [hv15b, if_pos hcol]
  · intro hblank
    have hnc : ¬ spriteCollide c.memory c.i (c.v instr.x % 64) (c.v instr.y % 32)
        instr.last_nibble c.display := by
      rintro ⟨p, _, _, hd⟩
      rw [hblank p] at hd
      simp at hd
    rw [hv15, if_neg hnc]

/-- Concrete machine for the counterexample: the one-row sprite 0x01 is
positioned at x = 63, y = 31 (bottom-right cell); its only lit bit would
land at index 2054, past the end of the grid, so no pixel is ever
drawn. -/
def cC4 : Chip8 :=
  { baseC8 with v := updf (updf baseC8.v 0 63) 1 31, i := 0x300, memory := updf baseC8.memory 0x300 0x01 }

/-- Claim C4 (counterexample): a non-empty sprite (byte 0x01 at the
address register) drawn twice at the same coordinates on a blank
display, yet the flag register still holds 0 after the second draw,
because the single lit bit is clipped off-screen and no pixel ever
toggles. -/
theorem C4_cex_clipped_sprite_no_collision_flag :
    cC4.memory cC4.i = 0x01 ∧
    cC4.display = (fun _ => false) ∧
    Instruction.last_nibble ⟨0xD011⟩ = 1 ∧
    (decode_and_execute 0 (decode_and_execute 0 cC4 ⟨0xD011⟩) ⟨0xD011⟩).v 15 = 0 :=
  ⟨by decide, rfl, by decide, by decide⟩

/-- Concrete machine for the amended claim: the one-row sprite 0x80
drawn at the origin lights the cell at index 0. -/
def cC4w : Chip8 :=
  { baseC8 with i := 0x300, memory := updf baseC8.memory 0x300 0x80 }

theorem cC4w_wf : cC4w.Wf := by
  refine ⟨fun a _ => ?_, fun r _ => ?_, ?_, ?_, ?_⟩
  · exact updf_lt _ 0x300 0x80 256 (fun a => by simp [baseC8]) (by omega) a
  · simp [cC4w, baseC8]
  · simp [cC4w, baseC8]
  · simp [cC4w, baseC8]
  · intro k hk
    simp [cC4w, baseC8] at hk

theorem C4_amended_witness :
    cC4w.Wf ∧ Instruction.first_nibble ⟨0xD011⟩ = 0xD ∧
      cC4w.i + Instruction.last_nibble ⟨0xD011⟩ ≤ 4096 ∧
      Instruction.x ⟨0xD011⟩ ≠ 15 ∧ Instruction.y ⟨0xD011⟩ ≠ 15 ∧
      ((∀ p, (decode_and_execute 0 cC4w ⟨0xD011⟩).display p = true →
          cC4w.display p = false →
          (decode_and_execute 0 (decode_and_execute 0 cC4w ⟨0xD011⟩) ⟨0xD011⟩).display p
            = false) ∧
        ((∃ p, spriteHits cC4w.memory cC4w.i
            (cC4w.v (Instruction.x ⟨0xD011⟩) % 64) (cC4w.v (Instruction.y ⟨0xD011⟩) % 32)
            (Instruction.last_nibble ⟨0xD011⟩) p ∧ cC4w.display p = false) →
          (decode_and_execute 0 (decode_and_execute 0 cC4w ⟨0xD011⟩) ⟨0xD011⟩).v 15 = 1) ∧
        ((∀ p, cC4w.display p = false) → (decode_and_execute 0 cC4w ⟨0xD011⟩).v 15 = 0)) :=
  ⟨cC4w_wf, by decide, by decide, by decide, by decide,
    C4_amended_double_draw 0 cC4w ⟨0xD011⟩ cC4w_wf (by decide) (by decide)
      (by decide) (by decide)⟩
